import Mathlib

/-!
Shallow embedding of the pixel-transform and dimension-policy core of the
`opencv-image-processing-lab` repository, together with theorems checking
the specification's claims about it.

The embedded functions are:
  * `validate_image` (src/core/utils.py) and the processors' input check;
  * `calcAspect` = `calculate_aspect_ratio` (src/core/utils.py);
  * `getNewDimensions` = `get_new_dimensions` (src/core/utils.py);
  * `buildGammaTable`, the 256-entry lookup table of `GammaAdjuster.process`
    (src/processors/gamma_adjuster.py via `create_lookup_table`);
  * `autoGammaValue` / `getRecommendedGamma`, the brightness heuristic of
    `GammaAdjuster.auto_gamma` / `get_recommended_gamma`;
  * `getRotationMatrix2D` / `rotatorStep` / `rotatorProcess`, the geometry
    of `ImageRotator.process` (src/processors/rotator.py).

Python machine floats are modelled as exact rationals for the inputs and as
real numbers for the transcendental intermediate values (power, sine,
cosine); Python `int()` is truncation toward zero.
-/

/-- Python `int(x)` on a rational: truncation toward zero. -/
def pyInt (q : ℚ) : ℤ := if 0 ≤ q then ⌊q⌋ else ⌈q⌉

/-- An image buffer: its numpy shape and its (flattened) samples. -/
structure Img where
  shape : List ℕ
  pixels : List ℕ
  deriving DecidableEq

/-- Number of axes of the buffer (`len(image.shape)`). -/
def Img.rank (i : Img) : ℕ := i.shape.length

/-- Total number of elements (`image.size` = product of the shape). -/
def Img.size (i : Img) : ℕ := i.shape.prod

/-- `image.shape[0]`. -/
def Img.height (i : Img) : ℕ := i.shape.getD 0 0

/-- `image.shape[1]`. -/
def Img.width (i : Img) : ℕ := i.shape.getD 1 0

/-- `validate_image` (src/core/utils.py): `None` is rejected, then the shape
must have rank 2 or 3.  No other condition is tested. -/
def validate_image : Option Img → Bool
  | none => false
  | some i => i.rank == 2 || i.rank == 3

/-- `ImageProcessor.validate_input`: raises `ValueError` iff `validate_image`
is false; modelled as the success condition of every processor entry point. -/
def validate_input (img? : Option Img) : Bool := validate_image img?

/-- `calculate_aspect_ratio` (src/core/utils.py):
`width / height if height != 0 else 0`. -/
def calcAspect (width height : ℕ) : ℚ :=
  if height ≠ 0 then (width : ℚ) / (height : ℚ) else 0

/-- Python truthiness of an `Optional[int]`: `None` and `0` are falsy. -/
def truthy : Option ℕ → Bool
  | none => false
  | some n => n != 0

/-- `get_new_dimensions` (src/core/utils.py).  The scale branch tests
presence (`is not None`); the target branches test truthiness. -/
def getNewDimensions (W H : ℕ) (tW tH : Option ℕ) (s? : Option ℚ)
    (ma : Bool) : ℤ × ℤ :=
  match s? with
  | some s => (pyInt ((W : ℚ) * s), pyInt ((H : ℚ) * s))
  | none =>
    if truthy tW && truthy tH then
      let tw := tW.getD 0
      let th := tH.getD 0
      if ma then
        let aspect := calcAspect W H
        let taspect := calcAspect tw th
        if taspect > aspect then (pyInt ((th : ℚ) * aspect), (th : ℤ))
        else ((tw : ℤ), pyInt ((tw : ℚ) / aspect))
      else ((tw : ℤ), (th : ℤ))
    else if truthy tW then
      let tw := tW.getD 0
      ((tw : ℤ), pyInt ((tw : ℚ) / calcAspect W H))
    else if truthy tH then
      let th := tH.getD 0
      (pyInt ((th : ℚ) * calcAspect W H), (th : ℤ))
    else ((W : ℤ), (H : ℤ))

/-- Mean brightness of a grayscale buffer (`np.mean(gray)`), exact. -/
def meanBrightness (pixels : List ℕ) : ℚ :=
  ((pixels.sum : ℚ)) / ((pixels.length : ℚ))

/-- The three-band gamma heuristic of `GammaAdjuster.auto_gamma`
(src/processors/gamma_adjuster.py) as a function of the mean brightness. -/
def autoGammaValue (m : ℚ) : ℚ :=
  if m < 85 then 1/2 + m / 170
  else if 170 < m then 1 + (m - 170) / 170
  else 1

/-- `GammaAdjuster.get_recommended_gamma` on a grayscale buffer: the
heuristic applied to the buffer's mean brightness. -/
def getRecommendedGamma (pixels : List ℕ) : ℚ :=
  autoGammaValue (meanBrightness pixels)

/-- Python float power `b ** e` for a rational base and exponent as the code
uses it: `0.0 ** e` with `e < 0` raises `ZeroDivisionError` (modelled as
`none`); every other case occurring here is the real power. -/
noncomputable def pyPow (b e : ℚ) : Option ℝ :=
  if b = 0 ∧ e < 0 then none else some ((b : ℝ) ^ (e : ℝ))

/-- Entry `i` of the gamma lookup table: `((i / 255.0) ** (1/γ)) * 255`,
cast to `uint8` by truncation. -/
noncomputable def gammaEntry (γ : ℚ) (i : ℕ) : ℕ :=
  ⌊((((i : ℚ) / 255 : ℚ)) : ℝ) ^ (((1 / γ : ℚ)) : ℝ) * 255⌋₊

/-- The lookup-table construction of `GammaAdjuster.process`
(src/processors/gamma_adjuster.py lines 52-55, via `create_lookup_table`):
`inv_gamma = 1.0 / gamma` (raises for γ = 0), then the comprehension
`[((i/255.0) ** inv_gamma) * 255 for i in range(256)]` cast to `uint8`.
`none` models the `ZeroDivisionError` escapes. -/
noncomputable def buildGammaTable (γ : ℚ) : Option (List ℕ) :=
  if γ = 0 then none
  else
    ((List.range 256).mapM fun i : ℕ => pyPow ((i : ℚ) / 255) (1 / γ)).map
      fun l => l.map fun x => ⌊x * 255⌋₊

/-- Python `int(x)` on a real: truncation toward zero. -/
noncomputable def pyIntR (x : ℝ) : ℤ := if 0 ≤ x then ⌊x⌋ else ⌈x⌉

/-- A 2×3 affine matrix, row-major: `[[a, b, c], [d, e, f]]`. -/
structure RotMatrix where
  a : ℝ
  b : ℝ
  c : ℝ
  d : ℝ
  e : ℝ
  f : ℝ

/-- `cv2.getRotationMatrix2D((cx,cy), θ, s)`: with `α = s·cos(θ·π/180)` and
`β = s·sin(θ·π/180)`, the matrix `[[α, β, (1−α)·cx − β·cy],
[−β, α, β·cx + (1−α)·cy]]`. -/
noncomputable def getRotationMatrix2D (cx cy : ℝ) (θdeg : ℚ) (s : ℝ) :
    RotMatrix :=
  let t := (θdeg : ℝ) * Real.pi / 180
  let α := s * Real.cos t
  let β := s * Real.sin t
  ⟨α, β, (1 - α) * cx - β * cy, -β, α, β * cx + (1 - α) * cy⟩

/-- Outcome of `ImageRotator.process`: either the θ = 0 short-circuit copy of
the input, or a warp by a matrix onto a canvas of the given size (the warp
itself is the external `cv2.warpAffine`). -/
inductive RotResult where
  | copy (img : Img)
  | warped (m : RotMatrix) (outW outH : ℤ)

/-- Whether the rotator took the θ = 0 short-circuit. -/
def RotResult.isCopy : RotResult → Bool
  | .copy _ => true
  | .warped _ _ _ => false

/-- The body of `ImageRotator.process` (src/processors/rotator.py) after
input validation: short-circuit at `degrees == 0`, else build the rotation
matrix about the integer-division center, and under `expand` recompute the
canvas from `|cos|`, `|sin|` and recenter the translation column. -/
noncomputable def rotatorStep (img : Img) (degrees : ℚ) (expand : Bool)
    (scale : ℝ) : RotResult :=
  if degrees = 0 then .copy img
  else
    let h := img.height
    let w := img.width
    let cx : ℝ := (w / 2 : ℕ)
    let cy : ℝ := (h / 2 : ℕ)
    let M := getRotationMatrix2D cx cy degrees scale
    if expand then
      let c := |M.a|
      let s := |M.b|
      let nw := pyIntR ((h : ℝ) * s + (w : ℝ) * c)
      let nh := pyIntR ((h : ℝ) * c + (w : ℝ) * s)
      let M' : RotMatrix :=
        ⟨M.a, M.b, M.c + ((nw : ℝ) / 2 - cx), M.d, M.e,
          M.f + ((nh : ℝ) / 2 - cy)⟩
      .warped M' nw nh
    else .warped M (w : ℤ) (h : ℤ)

/-- `ImageRotator.process` itself: `validate_input` first (`none` models the
`ValueError`), then the rotation body. -/
noncomputable def rotatorProcess (img? : Option Img) (degrees : ℚ)
    (expand : Bool) (scale : ℝ) : Option RotResult :=
  if validate_input img? then
    img?.map fun i => rotatorStep i degrees expand scale
  else none

/-- `mapM` over `Option` succeeds elementwise when every element maps to
`some`. -/
theorem list_mapM_eq_some {α β : Type} (f : α → Option β) (g : α → β) :
    ∀ l : List α, (∀ a ∈ l, f a = some (g a)) → l.mapM f = some (l.map g) := by
  intro l h
  rw [← List.mapM'_eq_mapM]
  induction l with
  | nil => simp [List.mapM']
  | cons a t ih =>
    have ha := h a (List.mem_cons_self a t)
    have ht := ih fun x hx => h x (List.mem_cons_of_mem a hx)
    simp [List.mapM', ha, ht]

/-- `mapM` over `Option` fails when the head fails. -/
theorem list_mapM_head_none {α β : Type} (f : α → Option β) (a : α)
    (l : List α) (ha : f a = none) : (a :: l).mapM f = none := by
  rw [← List.mapM'_eq_mapM]
  simp [List.mapM', ha]

/-- For γ > 0 every power in the table succeeds, and the table is the map of
`gammaEntry γ` over `range 256`. -/
theorem buildGammaTable_of_pos (γ : ℚ) (hγ : 0 < γ) :
    buildGammaTable γ = some ((List.range 256).map (gammaEntry γ)) := by
  have hne : γ ≠ 0 := ne_of_gt hγ
  have hinv : ¬ (1 / γ < 0) := not_lt.2 (le_of_lt (by positivity))
  unfold buildGammaTable
  rw [if_neg hne,
    list_mapM_eq_some _ (fun i : ℕ => ((((i : ℚ) / 255 : ℚ)) : ℝ) ^ (((1 / γ : ℚ)) : ℝ))]
  · rw [Option.map_some', List.map_map]
    rfl
  · intro a _
    unfold pyPow
    rw [if_neg]
    rintro ⟨-, hlt⟩
    exact hinv hlt

/-- Truncation equals floor on nonnegative rationals. -/
theorem pyInt_of_nonneg {q : ℚ} (h : 0 ≤ q) : pyInt q = ⌊q⌋ := if_pos h

/-- Truncation of a nonpositive rational is nonpositive. -/
theorem pyInt_nonpos {q : ℚ} (h : q ≤ 0) : pyInt q ≤ 0 := by
  unfold pyInt
  split
  · next h0 =>
      have : q = 0 := le_antisymm h h0
      simp [this]
  · exact Int.ceil_le.2 (by exact_mod_cast h)

/-- C1 counterexample: at original size 3×2 with targets 100×100 and aspect
preservation on, the resolver fits to target width and truncates
100 / (3/2) = 66.67 to 66, whereas rounding it as the claim states gives
67. -/
theorem dims_trunc_not_round :
    getNewDimensions 3 2 (some 100) (some 100) none true = (100, 66) ∧
    round ((100 : ℚ) / calcAspect 3 2) = 67 := by
  constructor
  · norm_num [getNewDimensions, pyInt, truthy, calcAspect]
  · norm_num [calcAspect, round_eq]

/-- C1 (amended): for W,H > 0 the resolver follows the strict top-down
precedence — a present scale factor s wins and gives
(floor(W·s), floor(H·s)) (truncation, equal to floor for s ≥ 0); else both
targets (nonzero) with aspect preservation on compare target aspect to
original aspect and fit to height when it is larger, else to width, with the
derived dimension truncated toward zero (not rounded); aspect preservation
off returns the targets; a single nonzero target derives the other dimension
from the original aspect by truncation; nothing given returns (W,H).  In
particular the two quoted examples hold. -/
theorem dims_precedence :
    (∀ W H : ℕ, 0 < W → 0 < H →
      (∀ (s : ℚ) (tW tH : Option ℕ) (ma : Bool), 0 ≤ s →
        getNewDimensions W H tW tH (some s) ma =
          (⌊(W : ℚ) * s⌋, ⌊(H : ℚ) * s⌋)) ∧
      (∀ tw th : ℕ, 0 < tw → 0 < th →
        getNewDimensions W H (some tw) (some th) none true =
          (if calcAspect tw th > calcAspect W H
            then (pyInt ((th : ℚ) * calcAspect W H), (th : ℤ))
            else ((tw : ℤ), pyInt ((tw : ℚ) / calcAspect W H))) ∧
        getNewDimensions W H (some tw) (some th) none false =
          ((tw : ℤ), (th : ℤ))) ∧
      (∀ tw : ℕ, 0 < tw → ∀ ma,
        getNewDimensions W H (some tw) none none ma =
          ((tw : ℤ), pyInt ((tw : ℚ) / calcAspect W H))) ∧
      (∀ th : ℕ, 0 < th → ∀ ma,
        getNewDimensions W H none (some th) none ma =
          (pyInt ((th : ℚ) * calcAspect W H), (th : ℤ))) ∧
      (∀ ma, getNewDimensions W H none none none ma =
        ((W : ℤ), (H : ℤ)))) ∧
    getNewDimensions 800 600 none none (some (1/2)) true = (400, 300) ∧
    getNewDimensions 800 600 (some 400) none none true = (400, 300) := by
  refine ⟨?_, ?_, ?_⟩
  · intro W H hW hH
    refine ⟨?_, ?_, ?_, ?_, ?_⟩
    · intro s tW tH ma hs
      show (pyInt ((W : ℚ) * s), pyInt ((H : ℚ) * s)) = _
      rw [pyInt_of_nonneg (by positivity), pyInt_of_nonneg (by positivity)]
    · intro tw th htw hth
      have h1 : truthy (some tw) = true := by
        simp only [truthy, bne_iff_ne, ne_eq, decide_eq_true_eq]
        omega
      have h2 : truthy (some th) = true := by
        simp only [truthy, bne_iff_ne, ne_eq, decide_eq_true_eq]
        omega
      constructor
      · simp only [getNewDimensions, h1, h2, Bool.and_self, if_true,
          Option.getD_some]
      · simp only [getNewDimensions, h1, h2, Bool.and_self, if_true,
          Option.getD_some, Bool.false_eq_true, if_false]
    · intro tw htw ma
      have h1 : truthy (some tw) = true := by
        simp only [truthy, bne_iff_ne, ne_eq, decide_eq_true_eq]
        omega
      simp [getNewDimensions, h1, truthy]
      exact fun h => absurd h htw.ne'
    · intro th hth ma
      have h2 : truthy (some th) = true := by
        simp only [truthy, bne_iff_ne, ne_eq, decide_eq_true_eq]
        omega
      simp [getNewDimensions, h2, truthy]
      exact fun h => absurd h hth.ne'
    · intro ma
      simp [getNewDimensions, truthy]
  · norm_num [getNewDimensions, pyInt]
  · norm_num [getNewDimensions, pyInt, truthy, calcAspect]

/-- C1 witness at (800,600): scale and target hypotheses discharged at
concrete inputs. -/
theorem dims_precedence_witness :
    0 < 800 ∧ 0 < 600 ∧ (0 : ℚ) ≤ 1/2 ∧
    getNewDimensions 800 600 none none (some (1/2)) true = (400, 300) := by
  refine ⟨by decide, by decide, by norm_num, ?_⟩
  exact ((dims_precedence.1 800 600 (by decide) (by decide)).1 (1/2) none
    none true (by norm_num)).trans (by norm_num)

/-- C2 counterexample: a scale factor of 0 is accepted and silently yields
(0,0); the resolver does not fail. -/
theorem dims_scale_zero_silent :
    getNewDimensions 800 600 none none (some 0) true = (0, 0) := by
  norm_num [getNewDimensions, pyInt]

/-- C2 (amended): the resolver performs no validation and cannot fail; for
any scale s ≤ 0 it silently returns the truncated pair
(int(W·s), int(H·s)), whose components are ≤ 0 — it does not reject such
requests with an error. -/
theorem dims_no_rejection :
    ∀ (W H : ℕ) (s : ℚ) (tW tH : Option ℕ) (ma : Bool), s ≤ 0 →
      getNewDimensions W H tW tH (some s) ma =
        (pyInt ((W : ℚ) * s), pyInt ((H : ℚ) * s)) ∧
      pyInt ((W : ℚ) * s) ≤ 0 ∧ pyInt ((H : ℚ) * s) ≤ 0 := by
  intro W H s tW tH ma hs
  refine ⟨rfl, ?_, ?_⟩ <;>
    exact pyInt_nonpos (mul_nonpos_of_nonneg_of_nonpos (by positivity) hs)

/-- C2 amended witness at (800,600) with scale 0. -/
theorem dims_no_rejection_witness :
    (0 : ℚ) ≤ 0 ∧
    (getNewDimensions 800 600 none none (some 0) true =
        (pyInt ((800 : ℚ) * 0), pyInt ((600 : ℚ) * 0)) ∧
      pyInt ((800 : ℚ) * 0) ≤ 0 ∧ pyInt ((600 : ℚ) * 0) ≤ 0) :=
  ⟨le_refl 0, dims_no_rejection 800 600 0 none none true (le_refl 0)⟩

/-- C10: a target of 0 is falsy, so zero targets fall through every targeted
rule and the original dimensions come back unchanged. -/
theorem dims_zero_targets_ignored :
    ∀ (W H : ℕ) (ma : Bool),
      getNewDimensions W H (some 0) (some 0) none ma = ((W : ℤ), (H : ℤ)) ∧
      getNewDimensions W H (some 0) none none ma = ((W : ℤ), (H : ℤ)) ∧
      getNewDimensions W H none (some 0) none ma = ((W : ℤ), (H : ℤ)) := by
  intro W H ma
  refine ⟨?_, ?_, ?_⟩ <;> simp [getNewDimensions, truthy]

/-- C3: for every γ > 0 the builder returns the 256-entry table whose entry
i is the truncation of ((i/255)^(1/γ))·255; entry 0 is 0, every entry fits
in a uint8, and at γ = 1 the table is the identity. -/
theorem gamma_table_entries (γ : ℚ) (hγ : 0 < γ) :
    buildGammaTable γ = some ((List.range 256).map (gammaEntry γ)) ∧
    ((List.range 256).map (gammaEntry γ)).length = 256 ∧
    (∀ i : ℕ,
      gammaEntry γ i =
        ⌊((((i : ℚ) / 255 : ℚ)) : ℝ) ^ (((1 / γ : ℚ)) : ℝ) * 255⌋₊) ∧
    gammaEntry γ 0 = 0 ∧
    (∀ i : ℕ, i ≤ 255 → gammaEntry γ i ≤ 255) ∧
    (γ = 1 → ∀ i : ℕ, gammaEntry γ i = i) := by
  have hexp : (0 : ℝ) < (((1 / γ : ℚ)) : ℝ) := by
    push_cast
    positivity
  refine ⟨buildGammaTable_of_pos γ hγ, by simp, fun i => rfl, ?_, ?_, ?_⟩
  · unfold gammaEntry
    rw [show (((0 : ℕ) : ℚ) / 255 : ℚ) = 0 by norm_num]
    rw [Rat.cast_zero, Real.zero_rpow (ne_of_gt hexp)]
    simp
  · intro i hi
    unfold gammaEntry
    have hb0 : (0 : ℝ) ≤ (((i : ℚ) / 255 : ℚ) : ℝ) := by
      push_cast
      positivity
    have hb1 : (((i : ℚ) / 255 : ℚ) : ℝ) ≤ 1 := by
      push_cast
      rw [div_le_one (by norm_num)]
      exact_mod_cast hi
    have hpow : (((i : ℚ) / 255 : ℚ) : ℝ) ^ (((1 / γ : ℚ)) : ℝ) ≤ 1 :=
      Real.rpow_le_one hb0 hb1 (le_of_lt hexp)
    calc ⌊(((i : ℚ) / 255 : ℚ) : ℝ) ^ (((1 / γ : ℚ)) : ℝ) * 255⌋₊
        ≤ ⌊(1 : ℝ) * 255⌋₊ := by
          apply Nat.floor_le_floor
          have : (0 : ℝ) ≤ 255 := by norm_num
          nlinarith
      _ = 255 := by norm_num
  · intro h1 i
    subst h1
    unfold gammaEntry
    rw [show ((1 : ℚ) / 1 : ℚ) = 1 by norm_num, Rat.cast_one, Real.rpow_one]
    rw [show ((((i : ℚ) / 255 : ℚ)) : ℝ) * 255 = (i : ℝ) by
      push_cast
      field_simp]
    exact_mod_cast Nat.floor_natCast i

/-- C3 witness at γ = 2. -/
theorem gamma_table_entries_witness :
    (0 : ℚ) < 2 ∧
    (buildGammaTable 2 = some ((List.range 256).map (gammaEntry 2)) ∧
      ((List.range 256).map (gammaEntry 2)).length = 256 ∧
      (∀ i : ℕ,
        gammaEntry 2 i =
          ⌊((((i : ℚ) / 255 : ℚ)) : ℝ) ^ (((1 / 2 : ℚ)) : ℝ) * 255⌋₊) ∧
      gammaEntry 2 0 = 0 ∧
      (∀ i : ℕ, i ≤ 255 → gammaEntry 2 i ≤ 255) ∧
      ((2 : ℚ) = 1 → ∀ i : ℕ, gammaEntry 2 i = i)) :=
  ⟨by norm_num, gamma_table_entries 2 (by norm_num)⟩

/-- C4: for every γ ≤ 0 the table construction fails (the division 1/γ or
the power 0^(1/γ) raises) and no table is produced. -/
theorem gamma_table_fails_nonpos (γ : ℚ) (hγ : γ ≤ 0) :
    buildGammaTable γ = none := by
  unfold buildGammaTable
  rcases eq_or_lt_of_le hγ with h0 | hneg
  · rw [if_pos h0]
  · rw [if_neg (ne_of_lt hneg)]
    have hfail : pyPow (((0 : ℕ) : ℚ) / 255) (1 / γ) = none := by
      unfold pyPow
      rw [if_pos ⟨by norm_num, div_neg_of_pos_of_neg one_pos hneg⟩]
    rw [show (256 : ℕ) = 255 + 1 by norm_num, List.range_succ_eq_map,
      list_mapM_head_none (fun i : ℕ => pyPow ((i : ℚ) / 255) (1 / γ))
        0 (List.map Nat.succ (List.range 255)) hfail]
    rfl

/-- C4 witness at γ = -1. -/
theorem gamma_table_fails_nonpos_witness :
    (-1 : ℚ) ≤ 0 ∧ buildGammaTable (-1) = none :=
  ⟨by norm_num, gamma_table_fails_nonpos (-1) (by norm_num)⟩

/-- C5: for every γ > 0 the built table is monotonically non-decreasing in
the index. -/
theorem gamma_table_monotone (γ : ℚ) (hγ : 0 < γ) :
    buildGammaTable γ = some ((List.range 256).map (gammaEntry γ)) ∧
    ∀ i j : ℕ, i ≤ j → gammaEntry γ i ≤ gammaEntry γ j := by
  refine ⟨buildGammaTable_of_pos γ hγ, fun i j hij => ?_⟩
  unfold gammaEntry
  have hexp : (0 : ℝ) ≤ (((1 / γ : ℚ)) : ℝ) := by
    push_cast
    positivity
  have hb0 : (0 : ℝ) ≤ (((i : ℚ) / 255 : ℚ) : ℝ) := by
    push_cast
    positivity
  have hble : (((i : ℚ) / 255 : ℚ) : ℝ) ≤ (((j : ℚ) / 255 : ℚ) : ℝ) := by
    push_cast
    gcongr
    
  exact Nat.floor_le_floor
    (mul_le_mul_of_nonneg_right (Real.rpow_le_rpow hb0 hble hexp)
      (by norm_num))

/-- C5 witness at γ = 2 with indices 3 ≤ 7. -/
theorem gamma_table_monotone_witness :
    (0 : ℚ) < 2 ∧ (3 : ℕ) ≤ 7 ∧ gammaEntry 2 3 ≤ gammaEntry 2 7 :=
  ⟨by norm_num, by decide, (gamma_table_monotone 2 (by norm_num)).2 3 7 (by decide)⟩

/-- C6: on a nonempty grayscale buffer with uint8 samples, the recommended
gamma is exactly the three-band piecewise-linear function of the mean m,
with γ ∈ [1/2, 1) on the dark band, γ = 1 on the inclusive midband,
γ ∈ (1, 3/2] on the bright band, and the three quoted specials. -/
theorem recommended_gamma_bands :
    ∀ pixels : List ℕ, pixels ≠ [] → (∀ p ∈ pixels, p ≤ 255) →
      getRecommendedGamma pixels = autoGammaValue (meanBrightness pixels) ∧
      (0 ≤ meanBrightness pixels ∧ meanBrightness pixels ≤ 255) ∧
      (meanBrightness pixels < 85 →
        autoGammaValue (meanBrightness pixels) =
          1/2 + meanBrightness pixels / 170 ∧
        1/2 ≤ autoGammaValue (meanBrightness pixels) ∧
        autoGammaValue (meanBrightness pixels) < 1) ∧
      (170 < meanBrightness pixels →
        autoGammaValue (meanBrightness pixels) =
          1 + (meanBrightness pixels - 170) / 170 ∧
        1 < autoGammaValue (meanBrightness pixels) ∧
        autoGammaValue (meanBrightness pixels) ≤ 3/2) ∧
      (85 ≤ meanBrightness pixels → meanBrightness pixels ≤ 170 →
        autoGammaValue (meanBrightness pixels) = 1) ∧
      (meanBrightness pixels = 127 → getRecommendedGamma pixels = 1) ∧
      (meanBrightness pixels = 0 → getRecommendedGamma pixels = 1/2) ∧
      (meanBrightness pixels = 255 → getRecommendedGamma pixels = 3/2) := by
  intro pixels hne hbound
  have hlen : 0 < (pixels.length : ℚ) := by
    have : pixels.length ≠ 0 := fun h => hne (List.length_eq_zero.mp h)
    exact_mod_cast Nat.pos_of_ne_zero this
  have hm0 : 0 ≤ meanBrightness pixels := by
    unfold meanBrightness
    positivity
  have hm255 : meanBrightness pixels ≤ 255 := by
    unfold meanBrightness
    rw [div_le_iff₀ hlen]
    have hs : pixels.sum ≤ pixels.length • 255 :=
      List.sum_le_card_nsmul pixels 255 hbound
    have : (pixels.sum : ℚ) ≤ (pixels.length : ℚ) * 255 := by
      exact_mod_cast hs
    linarith
  set m := meanBrightness pixels with hm
  refine ⟨rfl, ⟨hm0, hm255⟩, ?_, ?_, ?_, ?_, ?_, ?_⟩
  · intro hdark
    rw [autoGammaValue, if_pos hdark]
    refine ⟨rfl, by linarith, by linarith⟩
  · intro hbright
    rw [autoGammaValue, if_neg (by linarith), if_pos hbright]
    refine ⟨rfl, by linarith, by linarith⟩
  · intro h85 h170
    rw [autoGammaValue, if_neg (by linarith), if_neg (by linarith)]
  · intro h127
    rw [getRecommendedGamma, ← hm, h127]
    norm_num [autoGammaValue]
  · intro h0
    rw [getRecommendedGamma, ← hm, h0]
    norm_num [autoGammaValue]
  · intro h255
    rw [getRecommendedGamma, ← hm, h255]
    norm_num [autoGammaValue]

/-- C6 witness on the one-pixel buffer [127]. -/
theorem recommended_gamma_bands_witness :
    ([127] : List ℕ) ≠ [] ∧ (∀ p ∈ ([127] : List ℕ), p ≤ 255) ∧
    getRecommendedGamma [127] = autoGammaValue (meanBrightness [127]) :=
  ⟨by decide, by decide,
    (recommended_gamma_bands [127] (by decide) (by decide)).1⟩

/-- C9 counterexample: the rank-2 buffer of shape [0,0] has zero elements
yet passes validation — element count is never checked. -/
theorem validate_accepts_empty :
    validate_image (some ⟨[0, 0], []⟩) = true ∧
    Img.size ⟨[0, 0], []⟩ = 0 := by
  constructor
  · decide
  · decide

/-- C9 (amended): validation accepts a buffer exactly when it is present and
has rank 2 or 3; it does not inspect the element count, so accepted buffers
may be empty. -/
theorem validate_rank_only :
    ∀ img? : Option Img,
      validate_image img? = true ↔
        ∃ i, img? = some i ∧ (i.rank = 2 ∨ i.rank = 3) := by
  intro img?
  cases img? with
  | none => simp [validate_image]
  | some i => simp [validate_image]

/-- C8: degrees = 0 short-circuits `ImageRotator.process` to a copy of the
input regardless of the expand and scale flags, while degrees = 360 is not
short-circuited and goes through the warp path. -/
theorem rotate_zero_noop :
    ∀ (i : Img) (e : Bool) (s : ℝ), validate_image (some i) = true →
      rotatorProcess (some i) 0 e s = some (RotResult.copy i) ∧
      rotatorProcess (some i) 360 e s = some (rotatorStep i 360 e s) ∧
      (rotatorStep i 360 e s).isCopy = false := by
  intro i e s hv
  have hvi : validate_input (some i) = true := hv
  refine ⟨?_, ?_, ?_⟩
  · simp [rotatorProcess, hvi, rotatorStep]
  · simp [rotatorProcess, hvi]
  · rw [rotatorStep, if_neg (by norm_num : (360 : ℚ) ≠ 0)]
    cases e <;> simp [RotResult.isCopy]

/-- C8 witness on a valid 2×3 buffer with expand on and scale 1. -/
theorem rotate_zero_noop_witness :
    validate_image (some ⟨[2, 3], []⟩) = true ∧
    rotatorProcess (some ⟨[2, 3], []⟩) 0 true 1 =
      some (RotResult.copy ⟨[2, 3], []⟩) :=
  ⟨by decide, (rotate_zero_noop ⟨[2, 3], []⟩ true 1 (by decide)).1⟩

/-- At scale 1 and θ ≠ 0 with expand on, the rotator's output canvas and
recentered matrix expressed through sin and cos of the angle in radians. -/
theorem rotatorStep_expand (i : Img) (θ : ℚ) (hθ : θ ≠ 0) :
    rotatorStep i θ true 1 =
      (let t := (θ : ℝ) * Real.pi / 180
       let h := i.height
       let w := i.width
       let cx : ℝ := (w / 2 : ℕ)
       let cy : ℝ := (h / 2 : ℕ)
       let M := getRotationMatrix2D cx cy θ 1
       let nw := pyIntR ((h : ℝ) * |Real.sin t| + (w : ℝ) * |Real.cos t|)
       let nh := pyIntR ((h : ℝ) * |Real.cos t| + (w : ℝ) * |Real.sin t|)
       RotResult.warped
         ⟨M.a, M.b, M.c + ((nw : ℝ) / 2 - cx), M.d, M.e,
           M.f + ((nh : ℝ) / 2 - cy)⟩ nw nh) := by
  rw [rotatorStep, if_neg hθ]
  simp only [getRotationMatrix2D, one_mul, if_true]

/-- C7: with expand requested at the default scale 1, the canvas becomes
(int(H·|sin θ| + W·|cos θ|), int(H·|cos θ| + W·|sin θ|)) and the matrix's
translation terms are shifted by (W_new/2 − center.x, H_new/2 − center.y);
in particular a 100×100 buffer rotated 90° keeps size (100,100). -/
theorem rotate_expand_geometry :
    (∀ (i : Img) (θ : ℚ), θ ≠ 0 →
      rotatorStep i θ true 1 =
        (let t := (θ : ℝ) * Real.pi / 180
         let h := i.height
         let w := i.width
         let cx : ℝ := (w / 2 : ℕ)
         let cy : ℝ := (h / 2 : ℕ)
         let M := getRotationMatrix2D cx cy θ 1
         let nw := pyIntR ((h : ℝ) * |Real.sin t| + (w : ℝ) * |Real.cos t|)
         let nh := pyIntR ((h : ℝ) * |Real.cos t| + (w : ℝ) * |Real.sin t|)
         RotResult.warped
           ⟨M.a, M.b, M.c + ((nw : ℝ) / 2 - cx), M.d, M.e,
             M.f + ((nh : ℝ) / 2 - cy)⟩ nw nh)) ∧
    (∀ i : Img, i.height = 100 → i.width = 100 →
      ∃ M, rotatorStep i 90 true 1 = RotResult.warped M 100 100) := by
  constructor
  · exact rotatorStep_expand
  · intro i h100 w100
    have ht : ((90 : ℚ) : ℝ) * Real.pi / 180 = Real.pi / 2 := by
      push_cast
      ring
    have h1 : (100 : ℝ) * |Real.sin (Real.pi / 2)| +
        (100 : ℝ) * |Real.cos (Real.pi / 2)| = 100 := by
      rw [Real.sin_pi_div_two, Real.cos_pi_div_two]
      norm_num
    have h2 : (100 : ℝ) * |Real.cos (Real.pi / 2)| +
        (100 : ℝ) * |Real.sin (Real.pi / 2)| = 100 := by
      rw [Real.sin_pi_div_two, Real.cos_pi_div_two]
      norm_num
    have h100i : pyIntR (100 : ℝ) = 100 := by
      rw [pyIntR, if_pos (by norm_num : (0 : ℝ) ≤ 100)]
      norm_num
    rw [rotatorStep_expand i 90 (by norm_num)]
    simp only [h100, w100, ht, Nat.cast_ofNat, h1, h2, h100i]
    exact ⟨_, rfl⟩

/-- C7 witness on a 100×100 buffer rotated 90° with expand on. -/
theorem rotate_expand_geometry_witness :
    Img.height ⟨[100, 100], []⟩ = 100 ∧ Img.width ⟨[100, 100], []⟩ = 100 ∧
    ∃ M, rotatorStep ⟨[100, 100], []⟩ 90 true 1 =
      RotResult.warped M 100 100 :=
  ⟨by decide, by decide,
    rotate_expand_geometry.2 ⟨[100, 100], []⟩ (by decide) (by decide)⟩
